import Mathlib

/-!
Verification development for the agridom yield-prediction repository.

The development shallow-embeds the three relevant source units:

* the `predict-yield` edge function (`serve`): credential check, prompt
  construction, gateway status handling, and the "extract JSON from the
  model reply" normalization step;
* the client component `YieldPrediction.tsx` (`handlePredict`): form
  validation, dispatch, and response handling driving the request state;
* the settings provider (`AppSettingsProvider`): load-time merge with
  defaults, `updateSetting` and `updateNestedSetting`.

JavaScript/JSON values are embedded as the inductive `Json`; JS numbers
are embedded as finite decimal literals (`NumLit`), the only form the
code ever produces or consumes (no arithmetic is performed on them
anywhere in the embedded code; exponent notation and non-finite values
do not occur in any rendered output and are not modelled inside `Json`).
`JSON.parse` / `JSON.stringify` are embedded as an executable
recursive-descent reader (`Json.parse`) and printer (`Json.render`)
over character lists; `\uXXXX` escapes and exponent literals are the
only JSON forms the reader rejects that the real parser accepts, and no
property below depends on them.
-/

namespace Agridom

/-- The opening-brace character, by code point. -/
def lbrace : Char := Char.ofNat 123

/-- The closing-brace character, by code point. -/
def rbrace : Char := Char.ofNat 125

/-- JSON insignificant whitespace (space, tab, newline, carriage return). -/
def wsChar (c : Char) : Bool :=
  c = ' ' || c = '\n' || c = '\t' || c = '\r'

/-- Drop leading JSON whitespace. -/
def skipWs : List Char → List Char
  | [] => []
  | c :: cs => if wsChar c then skipWs cs else c :: cs

/-- Character for a decimal digit. -/
def digitChar : Nat → Char
  | 0 => '0'
  | 1 => '1'
  | 2 => '2'
  | 3 => '3'
  | 4 => '4'
  | 5 => '5'
  | 6 => '6'
  | 7 => '7'
  | 8 => '8'
  | 9 => '9'
  | _ => '*'

/-- Numeric value of a digit character. -/
def charDigit (c : Char) : Nat := c.toNat - 48

/-- Finite decimal literal: sign, integer digits, fraction digits.  This is
the form in which the embedded code writes JS numbers (`JSON.stringify`,
template interpolation) and the form the JSON reader below produces. -/
structure NumLit where
  neg : Bool
  int : List Nat
  frac : List Nat
deriving DecidableEq, Repr

/-- Print a decimal literal, as JS does for finite decimals. -/
def NumLit.render (n : NumLit) : List Char :=
  (if n.neg then ['-'] else []) ++ n.int.map digitChar ++
    (if n.frac.isEmpty then [] else '.' :: n.frac.map digitChar)

/-- Well-formed decimal literal: digits below 10, a nonempty integer part,
and no leading zero (JSON rejects `01`). -/
def NumLit.wf (n : NumLit) : Bool :=
  !n.int.isEmpty && n.int.all (· < 10) && n.frac.all (· < 10) &&
    (match n.int with
     | 0 :: rest => rest.isEmpty
     | _ => true)

/-- String rendering of a decimal literal (JS number-to-string coercion). -/
def NumLit.toText (n : NumLit) : String := String.mk n.render

/-- Embedded JSON/JS value. -/
inductive Json where
  | null
  | bool (b : Bool)
  | num (n : NumLit)
  | str (s : String)
  | arr (elems : List Json)
  | obj (members : List (String × Json))
deriving Repr

/-- Escape a character for a JSON string body, as `JSON.stringify` does for
the characters the development manipulates. -/
def escapeChar (c : Char) : List Char :=
  if c = '"' then ['\\', '"']
  else if c = '\\' then ['\\', '\\']
  else if c = '\n' then ['\\', 'n']
  else if c = '\t' then ['\\', 't']
  else if c = '\r' then ['\\', 'r']
  else [c]

/-- Render a JSON string with its surrounding quotes. -/
def renderStringChars (s : String) : List Char :=
  '"' :: s.data.foldr (fun c acc => escapeChar c ++ acc) ['"']

mutual
/-- Print a JSON value exactly as `JSON.stringify` does (no added spaces). -/
def Json.render : Json → List Char
  | .null => 'n' :: 'u' :: 'l' :: 'l' :: []
  | .bool true => 't' :: 'r' :: 'u' :: 'e' :: []
  | .bool false => 'f' :: 'a' :: 'l' :: 's' :: 'e' :: []
  | .num n => n.render
  | .str s => renderStringChars s
  | .arr xs => '[' :: renderElems xs ++ [']']
  | .obj kvs => lbrace :: renderMembers kvs ++ [rbrace]

/-- Print array elements, comma separated. -/
def renderElems : List Json → List Char
  | [] => []
  | [x] => Json.render x
  | x :: y :: xs => Json.render x ++ ',' :: renderElems (y :: xs)

/-- Print object members, comma separated. -/
def renderMembers : List (String × Json) → List Char
  | [] => []
  | [(k, v)] => renderStringChars k ++ ':' :: Json.render v
  | (k, v) :: m :: kvs =>
    renderStringChars k ++ ':' :: Json.render v ++ ',' :: renderMembers (m :: kvs)
end

mutual
/-- Fuel bound needed by the reader for a value. -/
def Json.fsize : Json → Nat
  | .null | .bool _ | .num _ | .str _ => 1
  | .arr xs => 1 + fsizeElems xs
  | .obj kvs => 1 + fsizeMembers kvs

/-- Fuel bound for an element list. -/
def fsizeElems : List Json → Nat
  | [] => 1
  | x :: xs => 1 + Json.fsize x + fsizeElems xs

/-- Fuel bound for a member list. -/
def fsizeMembers : List (String × Json) → Nat
  | [] => 1
  | (_, v) :: kvs => 1 + Json.fsize v + fsizeMembers kvs
end

/-- Safe string characters: no quote, no backslash, no control characters.
On these, `escapeChar` is the identity; every string literal in the
repository satisfies this. -/
def safeChar (c : Char) : Bool :=
  c ≠ '"' && c ≠ '\\' && 32 ≤ c.toNat

/-- All characters of a string are safe. -/
def strSafe (s : String) : Bool := s.data.all safeChar

/-- Well-formedness of an embedded JSON value: well-formed number literals
and escape-free strings. -/
inductive JsonWF : Json → Prop where
  | null : JsonWF .null
  | bool (b : Bool) : JsonWF (.bool b)
  | num (n : NumLit) (h : n.wf = true) : JsonWF (.num n)
  | str (s : String) (h : strSafe s = true) : JsonWF (.str s)
  | arr (xs : List Json) (h : ∀ x ∈ xs, JsonWF x) : JsonWF (.arr xs)
  | obj (kvs : List (String × Json)) (hk : ∀ kv ∈ kvs, strSafe kv.1 = true)
      (hv : ∀ kv ∈ kvs, JsonWF kv.2) : JsonWF (.obj kvs)

/-- Greedily read decimal digits. -/
def parseDigits : List Char → List Nat × List Char
  | [] => ([], [])
  | c :: cs =>
    if c.isDigit then
      let (ds, r) := parseDigits cs
      (charDigit c :: ds, r)
    else ([], c :: cs)

/-- Read an optional fraction after the integer digits of a number token. -/
def parseFracPart (neg : Bool) (ip : List Nat) : List Char → Option (NumLit × List Char)
  | [] => some (⟨neg, ip, []⟩, [])
  | c :: cs =>
    if c = '.' then
      let (fs, r) := parseDigits cs
      if fs.isEmpty then none else some (⟨neg, ip, fs⟩, r)
    else some (⟨neg, ip, []⟩, c :: cs)

/-- Read the unsigned part of a JSON number token (integer part with the
JSON leading-zero rule, optional fraction). -/
def parseUnsigned (neg : Bool) : List Char → Option (NumLit × List Char)
  | [] => none
  | c :: cs =>
    if c = '0' then parseFracPart neg [0] cs
    else if c.isDigit then
      let (ds, r) := parseDigits cs
      parseFracPart neg (charDigit c :: ds) r
    else none

/-- Read a JSON number token (sign, integer part with the JSON leading-zero
rule, optional fraction).  Exponent suffixes are not modelled. -/
def parseNumber : List Char → Option (NumLit × List Char)
  | [] => none
  | c :: r =>
    if c = '-' then parseUnsigned true r
    else parseUnsigned false (c :: r)

/-- Decode a JSON string escape.  `\uXXXX` escapes are not modelled. -/
def escDecode (e : Char) : Option Char :=
  if e = 'n' then some '\n'
  else if e = 't' then some '\t'
  else if e = 'r' then some '\r'
  else if e = '"' || e = '\\' || e = '/' then some e
  else if e = 'b' then some (Char.ofNat 8)
  else if e = 'f' then some (Char.ofNat 12)
  else none

/-- Read a JSON string body after its opening quote, up to and including the
closing quote.  Raw control characters are rejected, as `JSON.parse` does. -/
def parseStringChars : List Char → Option (List Char × List Char)
  | [] => none
  | c :: r =>
    if c = '"' then some ([], r)
    else if c = '\\' then
      match r with
      | [] => none
      | e :: r2 =>
        match escDecode e with
        | some ec =>
          match parseStringChars r2 with
          | some (cs, r3) => some (ec :: cs, r3)
          | none => none
        | none => none
    else if c.toNat < 32 then none
    else
      match parseStringChars r with
      | some (cs, r2) => some (c :: cs, r2)
      | none => none

/-- Mode of the recursive-descent JSON reader: a value, the elements of an
array (consuming the closing bracket), or the members of an object
(consuming the closing brace). -/
inductive PMode where
  | val
  | elems
  | members
deriving Repr

/-- Result of the reader, matching the mode. -/
inductive PRes where
  | val (j : Json)
  | elems (xs : List Json)
  | members (kvs : List (String × Json))
deriving Repr

/-- Fuel-indexed recursive-descent JSON reader.  `.elems`/`.members` read a
nonempty comma-separated list and consume the closing bracket/brace. -/
def parseP : Nat → PMode → List Char → Option (PRes × List Char)
  | 0, _, _ => none
  | fuel + 1, .val, s =>
    match skipWs s with
    | [] => none
    | c :: r =>
      if c = lbrace then
        match skipWs r with
        | [] => none
        | d :: r2 =>
          if d = rbrace then some (.val (.obj []), r2)
          else
            match parseP fuel .members (d :: r2) with
            | some (.members kvs, r3) => some (.val (.obj kvs), r3)
            | _ => none
      else if c = '[' then
        match skipWs r with
        | [] => none
        | d :: r2 =>
          if d = ']' then some (.val (.arr []), r2)
          else
            match parseP fuel .elems (d :: r2) with
            | some (.elems xs, r3) => some (.val (.arr xs), r3)
            | _ => none
      else if c = '"' then
        match parseStringChars r with
        | some (cs, r2) => some (.val (.str (String.mk cs)), r2)
        | none => none
      else if c = '-' || c.isDigit then
        match parseNumber (c :: r) with
        | some (nl, r2) => some (.val (.num nl), r2)
        | none => none
      else
        match c :: r with
        | 'n' :: 'u' :: 'l' :: 'l' :: r2 => some (.val .null, r2)
        | 't' :: 'r' :: 'u' :: 'e' :: r2 => some (.val (.bool true), r2)
        | 'f' :: 'a' :: 'l' :: 's' :: 'e' :: r2 => some (.val (.bool false), r2)
        | _ => none
  | fuel + 1, .elems, s =>
    match parseP fuel .val s with
    | some (.val j, r) =>
      (match skipWs r with
       | [] => none
       | c :: r2 =>
         if c = ',' then
           match parseP fuel .elems r2 with
           | some (.elems xs, r3) => some (.elems (j :: xs), r3)
           | _ => none
         else if c = ']' then some (.elems [j], r2)
         else none)
    | _ => none
  | fuel + 1, .members, s =>
    match skipWs s with
    | [] => none
    | c :: r =>
      if c = '"' then
        match parseStringChars r with
        | some (kcs, r2) =>
          (match skipWs r2 with
           | [] => none
           | d :: r3 =>
             if d = ':' then
               match parseP fuel .val r3 with
               | some (.val v, r4) =>
                 (match skipWs r4 with
                  | [] => none
                  | e :: r5 =>
                    if e = ',' then
                      match parseP fuel .members r5 with
                      | some (.members kvs, r6) =>
                        some (.members ((String.mk kcs, v) :: kvs), r6)
                      | _ => none
                    else if e = rbrace then
                      some (.members [(String.mk kcs, v)], r5)
                    else none)
               | _ => none
             else none)
        | none => none
      else none

/-- Embedded `JSON.parse`: read one value, allow trailing whitespace only.
The fuel `2 * length + 2` dominates the bound `Json.fsize` of any value the
input can denote. -/
def Json.parse (s : String) : Option Json :=
  match parseP (2 * s.length + 2) .val s.data with
  | some (.val j, r) => if skipWs r = [] then some j else none
  | _ => none

/-- The brace-bounded extraction step of the response normalizer: the match
of the regular expression `/\x7b[\s\S]*\x7d/` (first opening brace through
the last closing brace, if the latter follows the former). -/
def dropUntilBrace : List Char → Option (List Char)
  | [] => none
  | c :: cs => if c = lbrace then some (c :: cs) else dropUntilBrace cs

/-- Longest prefix ending at the last closing brace, if any. -/
def takeToLastClose : List Char → Option (List Char)
  | [] => none
  | c :: cs =>
    match takeToLastClose cs with
    | some t => some (c :: t)
    | none => if c = rbrace then some [c] else none

/-- `content.match(/\x7b[\s\S]*\x7d/)` from `serve`: the substring from the
first opening brace to the last closing brace. -/
def extractJson (cs : List Char) : Option (List Char) :=
  match dropUntilBrace cs with
  | some s => takeToLastClose s
  | none => none

/-- The response-normalization step of `serve` (part_000, lines 115-127):
try the brace-bounded substring, otherwise the whole text; a parse failure
raises `Failed to parse prediction data`.  The successfully parsed value is
returned as-is; no field of it is inspected. -/
def normalize (content : String) : Except String Json :=
  match extractJson content.data with
  | some sub =>
    match Json.parse (String.mk sub) with
    | some j => .ok j
    | none => .error "Failed to parse prediction data"
  | none =>
    match Json.parse content with
    | some j => .ok j
    | none => .error "Failed to parse prediction data"

/-- Last-wins lookup in a member list: the value `JSON.parse` gives a
duplicated key, and the value plain property access reads. -/
def lookupLast : List (String × Json) → String → Option Json
  | [], _ => none
  | (a, b) :: rest, k =>
    match lookupLast rest k with
    | some v => some v
    | none => if a = k then some b else none

/-- JS property read `j[k]`, `none` for absent properties and non-objects. -/
def Json.get? : Json → String → Option Json
  | .obj kvs, k => lookupLast kvs k
  | _, _ => none

/-- All digits zero, i.e. the literal denotes `0` (or `-0`). -/
def NumLit.isZero (n : NumLit) : Bool :=
  n.int.all (· == 0) && n.frac.all (· == 0)

/-- JS truthiness of an embedded value. -/
def jsTruthy : Json → Bool
  | .null => false
  | .bool b => b
  | .num n => !n.isZero
  | .str s => !(s == "")
  | .arr _ => true
  | .obj _ => true

/-- JS truthiness with `undefined` (absent property) being falsy. -/
def jsTruthyOpt : Option Json → Bool
  | none => false
  | some j => jsTruthy j

/-- JS property write `obj[k] = v` on an object kept as an insertion-ordered
association list: replace in place, or append a new key. -/
def objSet : List (String × Json) → String → Json → List (String × Json)
  | [], k, v => [(k, v)]
  | (a, b) :: rest, k, v =>
    if a = k then (a, v) :: rest else (a, b) :: objSet rest k v

/-- First-match property lookup (keys are unique in every state the
settings code builds). -/
def settingsGet : List (String × Json) → String → Option Json
  | [], _ => none
  | (a, b) :: rest, k => if a = k then some b else settingsGet rest k

/-- The own enumerable pairs JS object spread `...v` copies out of a value:
an object's members, a string's or array's indexed elements, nothing for
the primitives. -/
def jsSpreadPairs : Json → List (String × Json)
  | .obj kvs => kvs
  | .str s => s.data.enum.map fun p => (toString p.1, Json.str (String.mk [p.2]))
  | .arr xs => xs.enum.map fun p => (toString p.1, p.2)
  | _ => []

/-- The settings object, a JS object value. -/
abbrev Settings := List (String × Json)

/-- Spread-merge `\x7b...base, ...j\x7d`. -/
def spreadOver (base : Settings) (j : Json) : Settings :=
  (jsSpreadPairs j).foldl (fun acc kv => objSet acc kv.1 kv.2) base

/-- `defaultSettings` from the settings provider (part_001, lines 23-34). -/
def defaultSettings : Settings :=
  [("darkMode", .bool false),
   ("locale", .str "en-US"),
   ("compactMode", .bool false),
   ("currency", .str "USD"),
   ("dateFormat", .str "MM/DD/YYYY"),
   ("emailNotifications", .bool true),
   ("pushNotifications", .bool false),
   ("weatherAlerts", .bool true),
   ("autoSave", .bool true),
   ("offlineMode", .bool false)]

/-- The `useState` initializer of `AppSettingsProvider` (part_001, lines
49-59): `saved` is `localStorage.getItem('appSettings')` (`none` for a
missing key); a falsy or unparseable stored string yields the defaults,
a parsed value is spread over the defaults. -/
def initSettings (saved : Option String) : Settings :=
  match saved with
  | none => defaultSettings
  | some s =>
    if s == "" then defaultSettings
    else
      match Json.parse s with
      | some j => spreadOver defaultSettings j
      | none => defaultSettings

/-- `updateSetting` from the settings provider (part_001, lines 61-66). -/
def updateSetting (s : Settings) (key : String) (v : Json) : Settings :=
  objSet s key v

/-- `updateNestedSetting` from the settings provider (part_001, lines
69-88): read the section, and only when that value is truthy write back
`\x7b...sectionData, [key]: value\x7d`. -/
def updateNestedSetting (s : Settings) (sec key : String) (v : Json) : Settings :=
  match settingsGet s sec with
  | none => s
  | some sectionData =>
    if jsTruthy sectionData then
      objSet s sec (Json.obj (objSet (jsSpreadPairs sectionData) key v))
    else s

/-- The client form state of `YieldPrediction.tsx` (lines 44-52): seven
text fields. -/
structure FormData where
  cropType : String
  soilType : String
  humidity : String
  moisture : String
  temperature : String
  rainfall : String
  area : String
deriving DecidableEq, Repr

/-- The validation prefix of `handlePredict` (lines 58-71): first the two
categorical fields, then the five environmental fields, each tested only
for JS truthiness (a string is falsy exactly when empty).  Returns the
toast error for the first failing check. -/
def validateForm (f : FormData) : Option String :=
  if f.cropType == "" || f.soilType == "" then
    some "Please select crop type and soil type"
  else if ([f.humidity, f.moisture, f.temperature, f.rainfall, f.area].filter
      (fun v => v == "")).length > 0 then
    some "Please fill in all environmental factors"
  else none

/-- A JS number as produced by `parseFloat`. -/
inductive JSNum where
  | nan
  | infty (neg : Bool)
  | fin (neg : Bool) (int : List Nat) (frac : List Nat)
deriving DecidableEq, Repr

/-- `parseFloat`: trim leading whitespace, optional sign, an `Infinity`
literal or a longest decimal-digit prefix (exponent suffixes are not
modelled; no property below depends on them). -/
def jsParseFloat (s : String) : JSNum :=
  let t := skipWs s.data
  let (neg, t1) : Bool × List Char := match t with
    | '-' :: r => (true, r)
    | '+' :: r => (false, r)
    | _ => (false, t)
  if "Infinity".data.isPrefixOf t1 then .infty neg
  else
    let (ds, r1) := parseDigits t1
    match r1 with
    | '.' :: r2 =>
      let (fs, _) := parseDigits r2
      if ds.isEmpty && fs.isEmpty then .nan else .fin neg ds fs
    | _ => if ds.isEmpty then .nan else .fin neg ds []

/-- Whether a `parseFloat` result is a finite number. -/
def jsFinite : JSNum → Bool
  | .fin _ _ _ => true
  | _ => false

/-- The JSON body `handlePredict` posts to the `predict-yield` function
(lines 77-87): the categorical strings and the five `parseFloat` results. -/
structure InvokeBody where
  cropType : String
  soilType : String
  humidity : JSNum
  moisture : JSNum
  temperature : JSNum
  rainfall : JSNum
  area : JSNum
deriving DecidableEq, Repr

/-- The dispatch decision of `handlePredict`: `none` when validation stops
the request (no network call), otherwise the body of the single network
call. -/
def handlePredictDispatch (f : FormData) : Option InvokeBody :=
  match validateForm f with
  | some _ => none
  | none =>
    some
      { cropType := f.cropType
        soilType := f.soilType
        humidity := jsParseFloat f.humidity
        moisture := jsParseFloat f.moisture
        temperature := jsParseFloat f.temperature
        rainfall := jsParseFloat f.rainfall
        area := jsParseFloat f.area }

/-- Acceptance condition of the Input Validator as the specification words
it (spec section 4.1): both categorical fields non-empty and each numeric
field parseable as a finite number.  Stated for comparison with the code's
`validateForm`. -/
def specValidatorAccepts (f : FormData) : Bool :=
  !(f.cropType == "") && !(f.soilType == "") &&
    ([f.humidity, f.moisture, f.temperature, f.rainfall, f.area].all
      fun v => jsFinite (jsParseFloat v))

/-- The client component state touched by `handlePredict`: the `loading`
and `prediction` `useState` cells plus the list of toast messages shown. -/
structure ClientState where
  loading : Bool
  prediction : Option Json
  toasts : List String
deriving Repr

/-- The synchronous prefix of a dispatch after validation passed (lines
73-74): `setLoading(true); setPrediction(null)`. -/
def dispatchStart (s : ClientState) : ClientState :=
  { s with loading := true, prediction := none }

/-- What the awaited `supabase.functions.invoke` call hands back to the
continuation: a transport/HTTP error object with a message, or parsed
response data. -/
inductive InvokeResult where
  | failure (message : String)
  | ok (data : Json)
deriving Repr

/-- `String.prototype.includes`. -/
def listIncludes (needle : List Char) : List Char → Bool
  | [] => needle.isEmpty
  | c :: rest => needle.isPrefixOf (c :: rest) || listIncludes needle rest

/-- The toast chosen in the `if (error)` branch (lines 89-99). -/
def errorToastFor (message : String) : String :=
  if listIncludes "429".data message.data then
    "Rate limit exceeded. Please try again in a moment."
  else if listIncludes "402".data message.data then
    "Service credits depleted. Please contact support."
  else "Failed to generate prediction. Please try again."

/-- Toast text for `toast.error(data.error)`; the code only ever receives
a string there, other values are displayed by their default coercion,
which no property below depends on. -/
def errDisplay : Option Json → String
  | some (.str s) => s
  | _ => "[object Object]"

/-- The continuation of `handlePredict` after the awaited call (lines
89-114), including the `finally \x7b setLoading(false) \x7d`: an invoke
error toasts and returns; truthy `data.error` toasts and returns; anything
else becomes the new prediction with a success toast. -/
def applyInvokeResult (s : ClientState) (r : InvokeResult) : ClientState :=
  match r with
  | .failure msg =>
    { s with loading := false, toasts := s.toasts ++ [errorToastFor msg] }
  | .ok data =>
    if jsTruthyOpt (Json.get? data "error") then
      { s with loading := false,
               toasts := s.toasts ++ [errDisplay (Json.get? data "error")] }
    else
      { s with loading := false, prediction := some data,
               toasts := s.toasts ++ ["Yield prediction generated successfully!"] }

/-- The values `serve` destructures from the request body: the client sends
the two categorical strings and five finite numbers (`InvokeBody`), which
reach the template interpolation as decimal literals. -/
structure PredictionInput where
  cropType : String
  soilType : String
  humidity : NumLit
  moisture : NumLit
  temperature : NumLit
  rainfall : NumLit
  area : NumLit
deriving DecidableEq, Repr

/-- `systemPrompt` from `serve` (part_000, lines 24-44), byte for byte. -/
def systemPrompt : String :=
  "You are an expert agricultural AI specialized in crop yield prediction for tropical crops in Guadeloupe. \n" ++
  "Based on environmental factors, provide accurate yield predictions with confidence levels, detailed recommendations, and disease risk analysis.\n" ++
  "\n" ++
  "Consider typical yields for Guadeloupe crops:\n" ++
  "- Canne à Sucre (Sugar Cane): 60-100 t/ha\n" ++
  "- Banane (Banana): 25-40 t/ha  \n" ++
  "- Ananas (Pineapple): 40-60 t/ha\n" ++
  "- Igname (Yam): 12-25 t/ha\n" ++
  "- Madère (Taro): 15-30 t/ha\n" ++
  "- Christophine (Chayote): 20-35 t/ha\n" ++
  "\n" ++
  "Also analyze disease risks based on environmental conditions:\n" ++
  "- High humidity + high rainfall → fungal diseases (Black Sigatoka for bananas, leaf blight, root rot)\n" ++
  "- Excess moisture → bacterial diseases, crown rot\n" ++
  "- High temperature + low moisture → stress-related diseases, pest infestations\n" ++
  "- Poor drainage → Phytophthora, pythium\n" ++
  "- Optimal conditions for pests → viral diseases spread by insects\n" ++
  "\n" ++
  "Factor in how identified diseases would impact the predicted yield.\n" ++
  "\n" ++
  "Analyze how the provided environmental factors (soil type, humidity, moisture, temperature, rainfall) affect both yield potential and disease susceptibility."

/-- `userPrompt` from `serve` (part_000, lines 46-74): the fixed template
with the seven input values interpolated. -/
def userPrompt (i : PredictionInput) : String :=
  "Predict the yield for " ++ i.cropType ++ " with these conditions:\n" ++
  "- Soil Type: " ++ i.soilType ++ "\n" ++
  "- Humidity: " ++ i.humidity.toText ++ "%\n" ++
  "- Soil Moisture: " ++ i.moisture.toText ++ "%\n" ++
  "- Temperature: " ++ i.temperature.toText ++ "°C\n" ++
  "- Rainfall: " ++ i.rainfall.toText ++ "mm\n" ++
  "- Cultivation Area: " ++ i.area.toText ++ " hectares\n" ++
  "\n" ++
  "Provide:\n" ++
  "1. Predicted yield (in tonnes per hectare) - adjusted for disease impact if applicable\n" ++
  "2. Total production (yield × area)\n" ++
  "3. Confidence level (0-100%)\n" ++
  "4. Quality grade (Excellente/Bonne/Moyenne/Faible)\n" ++
  "5. Disease risks - identify potential diseases based on conditions with risk level (Low/Moderate/High/Critical)\n" ++
  "6. Disease impact on yield - how identified diseases reduce potential yield\n" ++
  "7. Key factors affecting the prediction\n" ++
  "8. Specific recommendations to optimize yield and prevent/manage diseases\n" ++
  "\n" ++
  "Format your response as JSON with this structure:\n" ++
  "\x7b\n" ++
  "  \"yieldPerHectare\": number,\n" ++
  "  \"totalProduction\": number,\n" ++
  "  \"confidenceLevel\": number,\n" ++
  "  \"qualityGrade\": string,\n" ++
  "  \"diseaseRisks\": [\x7b\"name\": string, \"riskLevel\": string, \"conditions\": string, \"yieldImpact\": string\x7d],\n" ++
  "  \"keyFactors\": [string],\n" ++
  "  \"recommendations\": [string],\n" ++
  "  \"analysis\": string\n" ++
  "\x7d"

/-- The Prompt Builder: both prompt strings for one input. -/
def buildPrompts (i : PredictionInput) : String × String :=
  (systemPrompt, userPrompt i)

/-- The single outbound request `serve` issues (part_000, lines 76-90). -/
structure GatewayRequest where
  url : String
  model : String
  messages : List (String × String)
  temperature : NumLit
deriving DecidableEq, Repr

/-- The credential check and request construction of `serve` (lines 19-22
and 76-90), everything before the one `fetch`: a missing (or falsy) key
throws before any request value is built. -/
def serveBuildRequest (apiKey : Option String) (i : PredictionInput) :
    Except String GatewayRequest :=
  match apiKey with
  | none => .error "LOVABLE_API_KEY is not configured"
  | some k =>
    if k == "" then .error "LOVABLE_API_KEY is not configured"
    else
      .ok
        { url := "https://ai.gateway.lovable.dev/v1/chat/completions"
          model := "google/gemini-2.5-flash"
          messages := [("system", systemPrompt), ("user", userPrompt i)]
          temperature := ⟨false, [0], [7]⟩ }

/-- What `serve` replies to the client: an HTTP status and a JSON body. -/
structure ClientResponse where
  status : Nat
  body : Json
deriving Repr

/-- A failure reply `\x7berror: message\x7d` with the given status. -/
def clientError (status : Nat) (msg : String) : ClientResponse :=
  ⟨status, .obj [("error", .str msg)]⟩

/-- The response handling of `serve` after the fetch resolved (part_000,
lines 92-131): `response.ok` is status 200-299; 429 and 402 get dedicated
replies; any other failure status throws `AI gateway error: <status>`,
which the surrounding catch turns into a 500 reply; a 2xx reply's content
goes through `normalize`, whose failure likewise becomes a 500 reply. -/
def serveHandleResponse (status : Nat) (content : String) : ClientResponse :=
  if 200 ≤ status && status ≤ 299 then
    match normalize content with
    | .ok j => ⟨200, j⟩
    | .error m => clientError 500 m
  else if status == 429 then
    clientError 429 "Rate limits exceeded. Please try again later."
  else if status == 402 then
    clientError 402 "Payment required. Please add credits to your workspace."
  else clientError 500 ("AI gateway error: " ++ toString status)

/-- The whole `serve` pipeline for one request, with the network modelled
as a function from the outbound request to the gateway status and reply
content.  A failure before the fetch never consults `net`. -/
def serveRun (apiKey : Option String) (i : PredictionInput)
    (net : GatewayRequest → Nat × String) : ClientResponse :=
  match serveBuildRequest apiKey i with
  | .error m => clientError 500 m
  | .ok gr => serveHandleResponse (net gr).1 (net gr).2

/-- The required top-level fields of a prediction result as the
specification words them (spec section 4.4), for comparison with what
`normalize` actually checks. -/
def hasRequiredFields (j : Json) : Bool :=
  ["yieldPerHectare", "totalProduction", "confidenceLevel", "qualityGrade",
   "keyFactors", "recommendations", "analysis"].all
    fun k => (Json.get? j k).isSome

/-- One disease-risk entry of a prediction result. -/
structure DiseaseRisk where
  name : String
  riskLevel : String
  conditions : String
  yieldImpact : String
deriving DecidableEq, Repr

/-- A well-formed structured prediction result (spec section 3 and the
JSON shape the user prompt requests). -/
structure PredictionResult where
  yieldPerHectare : NumLit
  totalProduction : NumLit
  confidenceLevel : NumLit
  qualityGrade : String
  diseaseRisks : List DiseaseRisk
  keyFactors : List String
  recommendations : List String
  analysis : String
deriving DecidableEq, Repr

/-- Serialize a disease risk to JSON. -/
def DiseaseRisk.toJson (d : DiseaseRisk) : Json :=
  .obj [("name", .str d.name), ("riskLevel", .str d.riskLevel),
        ("conditions", .str d.conditions), ("yieldImpact", .str d.yieldImpact)]

/-- Serialize a prediction result to JSON, in the field order of the
requested shape. -/
def PredictionResult.toJson (r : PredictionResult) : Json :=
  .obj [("yieldPerHectare", .num r.yieldPerHectare),
        ("totalProduction", .num r.totalProduction),
        ("confidenceLevel", .num r.confidenceLevel),
        ("qualityGrade", .str r.qualityGrade),
        ("diseaseRisks", .arr (r.diseaseRisks.map DiseaseRisk.toJson)),
        ("keyFactors", .arr (r.keyFactors.map Json.str)),
        ("recommendations", .arr (r.recommendations.map Json.str)),
        ("analysis", .str r.analysis)]

/-- Well-formedness of a prediction result: well-formed number literals
and escape-free strings throughout. -/
def PredictionResult.wfB (r : PredictionResult) : Bool :=
  r.yieldPerHectare.wf && r.totalProduction.wf && r.confidenceLevel.wf &&
  strSafe r.qualityGrade &&
  r.diseaseRisks.all (fun d =>
    strSafe d.name && strSafe d.riskLevel && strSafe d.conditions &&
      strSafe d.yieldImpact) &&
  r.keyFactors.all strSafe && r.recommendations.all strSafe &&
  strSafe r.analysis

/-- Read a number field. -/
def asNum : Json → Option NumLit
  | .num n => some n
  | _ => none

/-- Read a string field. -/
def asStr : Json → Option String
  | .str s => some s
  | _ => none

/-- Read each element as a string. -/
def mapStrs : List Json → Option (List String)
  | [] => some []
  | x :: xs =>
    match asStr x with
    | some s =>
      match mapStrs xs with
      | some l => some (s :: l)
      | none => none
    | none => none

/-- Read a string array field. -/
def asStrList : Json → Option (List String)
  | .arr xs => mapStrs xs
  | _ => none

/-- Decode one disease-risk entry. -/
def DiseaseRisk.fromJson? (j : Json) : Option DiseaseRisk := do
  let n ← (Json.get? j "name").bind asStr
  let rl ← (Json.get? j "riskLevel").bind asStr
  let co ← (Json.get? j "conditions").bind asStr
  let yi ← (Json.get? j "yieldImpact").bind asStr
  pure ⟨n, rl, co, yi⟩

/-- Decode each element as a disease-risk entry. -/
def mapRisks : List Json → Option (List DiseaseRisk)
  | [] => some []
  | x :: xs =>
    match DiseaseRisk.fromJson? x with
    | some d =>
      match mapRisks xs with
      | some l => some (d :: l)
      | none => none
    | none => none

/-- Decode a disease-risk array field. -/
def asRiskList : Json → Option (List DiseaseRisk)
  | .arr xs => mapRisks xs
  | _ => none

/-- Decode a structured prediction result the way its consumers read it:
the seven required fields, with `diseaseRisks` optional. -/
def PredictionResult.fromJson? (j : Json) : Option PredictionResult := do
  let y ← (Json.get? j "yieldPerHectare").bind asNum
  let tp ← (Json.get? j "totalProduction").bind asNum
  let cl ← (Json.get? j "confidenceLevel").bind asNum
  let qg ← (Json.get? j "qualityGrade").bind asStr
  let risks ←
    match Json.get? j "diseaseRisks" with
    | none => some []
    | some dj => asRiskList dj
  let kf ← (Json.get? j "keyFactors").bind asStrList
  let rec' ← (Json.get? j "recommendations").bind asStrList
  let an ← (Json.get? j "analysis").bind asStr
  pure ⟨y, tp, cl, qg, risks, kf, rec', an⟩

/-- Sample well-formed prediction result (the stubbed reply of the
specification's scenario) used to instantiate the round-trip law. -/
def sampleResult : PredictionResult :=
  { yieldPerHectare := ⟨false, [2, 8], [5]⟩
    totalProduction := ⟨false, [1, 1, 4], []⟩
    confidenceLevel := ⟨false, [7, 2], []⟩
    qualityGrade := "Bonne"
    diseaseRisks := [⟨"Black Sigatoka", "High", "high humidity and rainfall", "-15%"⟩]
    keyFactors := ["high humidity"]
    recommendations := ["improve drainage"]
    analysis := "ok" }

/-- Sample markdown preamble around the fenced reply. -/
def samplePre : String := "Here is the prediction:\n```json\n"

/-- Sample trailing text after the fenced reply. -/
def samplePost : String := "\n```\nGood luck!"

/-- Sample validated prediction input. -/
def sampleInput : PredictionInput :=
  { cropType := "Banane"
    soilType := "Argileux"
    humidity := ⟨false, [9, 0], []⟩
    moisture := ⟨false, [8, 5], []⟩
    temperature := ⟨false, [3, 0], []⟩
    rainfall := ⟨false, [2, 5, 0], []⟩
    area := ⟨false, [4], []⟩ }

/-- A continuation at which greedy digit reading stops. -/
def digitStop : List Char → Prop
  | [] => True
  | c :: _ => c.isDigit = false

/-- A continuation at which a number token provably ends: no digit that
would extend it, no dot that would start a fraction. -/
def numStop : List Char → Prop
  | [] => True
  | c :: _ => c.isDigit = false ∧ c ≠ '.'

/-- A continuation after which a rendered value reads back unchanged; only
numbers constrain it. -/
def valStop : Json → List Char → Prop
  | .num _, rest => numStop rest
  | _, _ => True

/-! ### Reader/printer helper lemmas -/

theorem skipWs_cons_not {c : Char} (r : List Char) (h : wsChar c = false) :
    skipWs (c :: r) = c :: r := by
  simp [skipWs, h]

theorem digitChar_spec {d : Nat} (h : d < 10) :
    (digitChar d).isDigit = true ∧ charDigit (digitChar d) = d ∧
    wsChar (digitChar d) = false ∧ digitChar d ≠ lbrace ∧
    digitChar d ≠ rbrace ∧ digitChar d ≠ '[' ∧ digitChar d ≠ ']' ∧
    digitChar d ≠ '"' ∧ digitChar d ≠ ',' ∧ digitChar d ≠ '.' ∧
    digitChar d ≠ ':' ∧ digitChar d ≠ '-' ∧ safeChar (digitChar d) = true := by
  interval_cases d <;> decide

theorem digitChar_ne_zero {d : Nat} (h : d < 10) (h0 : d ≠ 0) :
    digitChar d ≠ '0' := by
  interval_cases d <;> simp_all <;> decide

theorem parseDigits_map (ds : List Nat) (hds : ∀ d ∈ ds, d < 10)
    (rest : List Char) (hrest : digitStop rest) :
    parseDigits (ds.map digitChar ++ rest) = (ds, rest) := by
  induction ds with
  | nil =>
    cases rest with
    | nil => rfl
    | cons c cs =>
      simp only [digitStop] at hrest
      simp [parseDigits, hrest]
  | cons d ds ih =>
    have hd := digitChar_spec (hds d (by simp))
    simp [parseDigits, hd.1, hd.2.1, ih (fun x hx => hds x (by simp [hx]))]

theorem parseFracPart_none (neg : Bool) (ip : List Nat) (rest : List Char)
    (hrest : numStop rest) :
    parseFracPart neg ip rest = some (⟨neg, ip, []⟩, rest) := by
  cases rest with
  | nil => rfl
  | cons c cs =>
    simp only [numStop] at hrest
    simp [parseFracPart, hrest.2]

theorem parseFracPart_some (neg : Bool) (ip : List Nat) (fs : List Nat)
    (hne : fs ≠ []) (hfs : ∀ d ∈ fs, d < 10) (rest : List Char)
    (hrest : digitStop rest) :
    parseFracPart neg ip ('.' :: fs.map digitChar ++ rest) =
      some (⟨neg, ip, fs⟩, rest) := by
  simp [parseFracPart, parseDigits_map fs hfs rest hrest, hne]

theorem numStop_digitStop {rest : List Char} (h : numStop rest) :
    digitStop rest := by
  cases rest with
  | nil => trivial
  | cons c cs => exact h.1

/-- The rendered fraction part of a decimal literal. -/
theorem parseUnsigned_render (neg : Bool) (d0 : Nat) (ds frac : List Nat)
    (hd0 : d0 < 10) (hds : ∀ d ∈ ds, d < 10) (hfrac : ∀ d ∈ frac, d < 10)
    (hlead : d0 = 0 → ds = []) (rest : List Char) (hrest : numStop rest) :
    parseUnsigned neg
        ((d0 :: ds).map digitChar ++
          (if frac.isEmpty then [] else '.' :: frac.map digitChar) ++ rest) =
      some (⟨neg, d0 :: ds, frac⟩, rest) := by
  have hspec := digitChar_spec hd0
  rcases Nat.eq_zero_or_pos d0 with h0 | h0
  · subst h0
    rw [hlead rfl]
    cases frac with
    | nil =>
      simpa [parseUnsigned] using parseFracPart_none neg [0] rest hrest
    | cons f fs =>
      simpa [parseUnsigned] using
        parseFracPart_some neg [0] (f :: fs) (by simp) hfrac rest
          (numStop_digitStop hrest)
  · have hne0 : digitChar d0 ≠ '0' := digitChar_ne_zero hd0 (by omega)
    cases frac with
    | nil =>
      have hdig := parseDigits_map ds hds rest (numStop_digitStop hrest)
      simp [parseUnsigned, hne0, hspec.1, hspec.2.1, hdig,
        parseFracPart_none neg (d0 :: ds) rest hrest]
    | cons f fs =>
      have hdig := parseDigits_map ds hds ('.' :: (f :: fs).map digitChar ++ rest)
        (by simp [digitStop])
      have hfp := parseFracPart_some neg (d0 :: ds) (f :: fs) (by simp) hfrac rest
        (numStop_digitStop hrest)
      simp only [List.map_cons, List.cons_append, List.append_assoc] at hdig hfp
      simp [parseUnsigned, hne0, hspec.1, hspec.2.1, hdig, hfp]

theorem parseNumber_render (n : NumLit) (hwf : n.wf = true) (rest : List Char)
    (hrest : numStop rest) :
    parseNumber (NumLit.render n ++ rest) = some (n, rest) := by
  obtain ⟨neg, int, frac⟩ := n
  simp only [NumLit.wf, Bool.and_eq_true, List.all_eq_true,
    decide_eq_true_eq, Bool.not_eq_true', List.isEmpty_eq_false] at hwf
  obtain ⟨⟨⟨hne, hint⟩, hfrac⟩, hlead⟩ := hwf
  cases int with
  | nil => exact absurd rfl hne
  | cons d0 ds =>
    have hd0 : d0 < 10 := hint d0 (by simp)
    have hds : ∀ d ∈ ds, d < 10 := fun d hd => hint d (by simp [hd])
    have hlead' : d0 = 0 → ds = [] := by
      intro h0
      subst h0
      simpa [List.isEmpty_iff] using hlead
    have hcore := parseUnsigned_render neg d0 ds frac hd0 hds hfrac hlead' rest hrest
    have hdigit := digitChar_spec hd0
    cases neg with
    | true =>
      simpa [NumLit.render, parseNumber] using hcore
    | false =>
      simpa [NumLit.render, parseNumber, hdigit.2.2.2.2.2.2.2.2.2.2.2.1] using hcore

theorem escapeChar_safe {c : Char} (h : safeChar c = true) : escapeChar c = [c] := by
  simp only [safeChar, Bool.and_eq_true, decide_eq_true_eq] at h
  obtain ⟨⟨h1, h2⟩, h3⟩ := h
  unfold escapeChar
  rw [if_neg h1, if_neg h2, if_neg, if_neg, if_neg]
  · rintro rfl; exact absurd h3 (by decide)
  · rintro rfl; exact absurd h3 (by decide)
  · rintro rfl; exact absurd h3 (by decide)

theorem foldr_escape_safe (cs : List Char) (h : ∀ c ∈ cs, safeChar c = true) :
    cs.foldr (fun c acc => escapeChar c ++ acc) ['"'] = cs ++ ['"'] := by
  induction cs with
  | nil => rfl
  | cons c cs ih =>
    rw [List.foldr_cons, escapeChar_safe (h c (by simp)),
      ih fun x hx => h x (by simp [hx])]
    rfl

theorem renderStringChars_safe (s : String) (h : strSafe s = true) :
    renderStringChars s = '"' :: s.data ++ ['"'] := by
  simp only [strSafe, List.all_eq_true] at h
  unfold renderStringChars
  rw [foldr_escape_safe s.data h]
  rfl

theorem parseStringChars_append (cs : List Char)
    (h : ∀ c ∈ cs, safeChar c = true) (rest : List Char) :
    parseStringChars (cs ++ '"' :: rest) = some (cs, rest) := by
  induction cs with
  | nil =>
    simp only [List.nil_append]
    unfold parseStringChars
    rw [if_pos rfl]
  | cons c cs ih =>
    have hc := h c (by simp)
    simp only [safeChar, Bool.and_eq_true, decide_eq_true_eq] at hc
    obtain ⟨⟨h1, h2⟩, h3⟩ := hc
    rw [List.cons_append]
    unfold parseStringChars
    rw [if_neg h1, if_neg h2, if_neg (Nat.not_lt.mpr h3),
      ih fun x hx => h x (by simp [hx])]

theorem fsize_pos (j : Json) : 1 ≤ Json.fsize j := by
  cases j <;> simp [Json.fsize]

theorem fsizeElems_pos (xs : List Json) : 1 ≤ fsizeElems xs := by
  cases xs with
  | nil => simp [fsizeElems]
  | cons x xs => simp only [fsizeElems]; omega

theorem fsizeMembers_pos (kvs : List (String × Json)) : 1 ≤ fsizeMembers kvs := by
  cases kvs with
  | nil => simp [fsizeMembers]
  | cons kv kvs => obtain ⟨k, v⟩ := kv; simp only [fsizeMembers]; omega

theorem valStop_punct {j : Json} {c : Char} (h1 : c.isDigit = false)
    (h2 : c ≠ '.') (r : List Char) : valStop j (c :: r) := by
  cases j <;> simp [valStop, numStop, h1, h2]

theorem numLit_render_head (nl : NumLit) (h : nl.wf = true) :
    ∃ c cs, NumLit.render nl = c :: cs ∧ wsChar c = false ∧
      (c = '-' || c.isDigit) = true ∧ c ≠ lbrace ∧ c ≠ '[' ∧ c ≠ '"' ∧
      c ≠ ']' ∧ c ≠ rbrace := by
  obtain ⟨neg, int, frac⟩ := nl
  simp only [NumLit.wf, Bool.and_eq_true, List.all_eq_true,
    decide_eq_true_eq, Bool.not_eq_true', List.isEmpty_eq_false] at h
  obtain ⟨⟨⟨hne, hint⟩, _⟩, _⟩ := h
  cases int with
  | nil => exact absurd rfl hne
  | cons d0 ds =>
    have hd := digitChar_spec (hint d0 (by simp))
    cases neg with
    | true =>
      exact ⟨'-', _, rfl, by decide, by decide, by decide, by decide,
        by decide, by decide, by decide⟩
    | false =>
      have hrender : NumLit.render ⟨false, d0 :: ds, frac⟩ =
          digitChar d0 :: (ds.map digitChar ++
            (if frac.isEmpty then [] else '.' :: frac.map digitChar)) := by
        simp [NumLit.render]
      exact ⟨digitChar d0, _, hrender, hd.2.2.1, by simp [hd.1], hd.2.2.2.1,
        hd.2.2.2.2.2.1, hd.2.2.2.2.2.2.2.1, hd.2.2.2.2.2.2.1, hd.2.2.2.2.1⟩

theorem render_head (j : Json) (h : JsonWF j) :
    ∃ c cs, Json.render j = c :: cs ∧ wsChar c = false ∧ c ≠ ']' := by
  cases h with
  | null => exact ⟨'n', ['u', 'l', 'l'], by simp [Json.render], by decide, by decide⟩
  | bool b =>
    cases b with
    | true => exact ⟨'t', ['r', 'u', 'e'], by simp [Json.render], by decide, by decide⟩
    | false => exact ⟨'f', ['a', 'l', 's', 'e'], by simp [Json.render], by decide, by decide⟩
  | num n hn =>
    obtain ⟨c, cs, hcons, hws, _, _, _, _, hrb, _⟩ := numLit_render_head n hn
    exact ⟨c, cs, by simp [Json.render, hcons], hws, hrb⟩
  | str s hs =>
    exact ⟨'"', s.data.foldr (fun c acc => escapeChar c ++ acc) ['"'],
      by simp [Json.render, renderStringChars], by decide, by decide⟩
  | arr xs hxs =>
    exact ⟨'[', renderElems xs ++ [']'], by simp [Json.render], by decide, by decide⟩
  | obj kvs hk hv =>
    exact ⟨lbrace, renderMembers kvs ++ [rbrace], by simp [Json.render],
      by decide, by decide⟩

theorem parseP_render (n : Nat) :
    (∀ j, Json.fsize j ≤ n → JsonWF j → ∀ fuel rest, Json.fsize j ≤ fuel →
      valStop j rest →
      parseP fuel .val (Json.render j ++ rest) = some (.val j, rest)) ∧
    (∀ xs : List Json, fsizeElems xs ≤ n → xs ≠ [] → (∀ x ∈ xs, JsonWF x) →
      ∀ fuel rest, fsizeElems xs ≤ fuel →
      parseP fuel .elems (renderElems xs ++ ']' :: rest) = some (.elems xs, rest)) ∧
    (∀ kvs : List (String × Json), fsizeMembers kvs ≤ n → kvs ≠ [] →
      (∀ kv ∈ kvs, strSafe kv.1 = true ∧ JsonWF kv.2) →
      ∀ fuel rest, fsizeMembers kvs ≤ fuel →
      parseP fuel .members (renderMembers kvs ++ rbrace :: rest) =
        some (.members kvs, rest)) := by
  induction n using Nat.strong_induction_on with
  | _ n ih =>
  refine ⟨?_, ?_, ?_⟩
  · -- values
    intro j hjn hwf fuel rest hfuel hstop
    obtain ⟨f, rfl⟩ : ∃ f, fuel = f + 1 := ⟨fuel - 1, by have := fsize_pos j; omega⟩
    cases hwf with
    | null => rfl
    | bool b => cases b <;> rfl
    | num nl hn =>
      obtain ⟨c, cs, hcons, hws, hor, hnlb, hnlsq, hnq, hnrsq, hnrb⟩ :=
        numLit_render_head nl hn
      simp only [valStop] at hstop
      have hpn := parseNumber_render nl hn rest hstop
      rw [hcons, List.cons_append] at hpn
      have hrender : Json.render (.num nl) = c :: cs := by
        simp [Json.render, hcons]
      rw [hrender, List.cons_append]
      unfold parseP
      rw [skipWs_cons_not _ hws]
      dsimp only
      rw [if_neg hnlb, if_neg hnlsq, if_neg hnq, if_pos hor, hpn]
    | str s hs =>
      have hsafe : ∀ c ∈ s.data, safeChar c = true := by
        simpa [strSafe, List.all_eq_true] using hs
      have hshape : Json.render (.str s) ++ rest = '"' :: (s.data ++ '"' :: rest) := by
        simp [Json.render, renderStringChars_safe s hs]
      rw [hshape]
      unfold parseP
      rw [skipWs_cons_not _ (show wsChar '"' = false by decide)]
      dsimp only
      rw [if_neg (show ¬('"' = lbrace) by decide),
        if_neg (show ¬('"' = '[') by decide), if_pos rfl,
        parseStringChars_append s.data hsafe rest]
    | arr xs hxs =>
      cases xs with
      | nil => rfl
      | cons x xs' =>
        have hx := hxs x (by simp)
        obtain ⟨c, cs, hcons, hws, hrsq⟩ := render_head x hx
        obtain ⟨t, ht⟩ : ∃ t, renderElems (x :: xs') = Json.render x ++ t := by
          cases xs' with
          | nil => exact ⟨[], by simp [renderElems]⟩
          | cons y ys => exact ⟨',' :: renderElems (y :: ys), by simp [renderElems]⟩
        simp only [Json.fsize] at hjn hfuel
        have helems := (ih (n - 1) (by omega)).2.1 (x :: xs')
          (by have := fsizeElems_pos (x :: xs'); omega)
          (by simp) hxs f rest (by omega)
        have hshape : Json.render (.arr (x :: xs')) ++ rest =
            '[' :: (renderElems (x :: xs') ++ ']' :: rest) := by
          simp [Json.render]
        have harg : renderElems (x :: xs') ++ ']' :: rest =
            c :: (cs ++ (t ++ ']' :: rest)) := by
          rw [ht, hcons]
          simp
        rw [hshape]
        unfold parseP
        rw [skipWs_cons_not _ (show wsChar '[' = false by decide)]
        dsimp only
        rw [if_neg (show ¬('[' = lbrace) by decide), if_pos rfl, harg,
          skipWs_cons_not _ hws]
        dsimp only
        rw [if_neg hrsq, ← harg, helems]
    | obj kvs hk hv =>
      cases kvs with
      | nil => rfl
      | cons kv kvs' =>
        obtain ⟨k, v⟩ := kv
        have hksafe := hk (k, v) (by simp)
        obtain ⟨t, ht⟩ : ∃ t, renderMembers ((k, v) :: kvs') =
            renderStringChars k ++ ':' :: Json.render v ++ t := by
          cases kvs' with
          | nil => exact ⟨[], by simp [renderMembers]⟩
          | cons m ms => exact ⟨',' :: renderMembers (m :: ms), by simp [renderMembers]⟩
        simp only [Json.fsize] at hjn hfuel
        have hmem := (ih (n - 1) (by omega)).2.2 ((k, v) :: kvs')
          (by have := fsizeMembers_pos ((k, v) :: kvs'); omega)
          (by simp) (fun kv hkv => ⟨hk kv hkv, hv kv hkv⟩) f rest (by omega)
        have hshape : Json.render (.obj ((k, v) :: kvs')) ++ rest =
            lbrace :: (renderMembers ((k, v) :: kvs') ++ rbrace :: rest) := by
          simp [Json.render]
        have harg : renderMembers ((k, v) :: kvs') ++ rbrace :: rest =
            '"' :: ((k.data.foldr (fun c acc => escapeChar c ++ acc) ['"']) ++
              (':' :: Json.render v ++ (t ++ rbrace :: rest))) := by
          rw [ht]
          simp [renderStringChars]
        rw [hshape]
        unfold parseP
        rw [skipWs_cons_not _ (show wsChar lbrace = false by decide)]
        dsimp only
        rw [if_pos rfl, harg, skipWs_cons_not _ (show wsChar '"' = false by decide)]
        dsimp only
        rw [if_neg (show ¬('"' = rbrace) by decide), ← harg, hmem]
  · -- array elements
    intro xs hn' hne hall fuel rest hfuel
    cases xs with
    | nil => exact absurd rfl hne
    | cons x xs' =>
      obtain ⟨f, rfl⟩ : ∃ f, fuel = f + 1 :=
        ⟨fuel - 1, by have := fsizeElems_pos (x :: xs'); omega⟩
      have hx := hall x (by simp)
      simp only [fsizeElems] at hn' hfuel
      have h1 := fsize_pos x
      have h2 := fsizeElems_pos xs'
      have hvalIH := (ih (n - 1) (by omega)).1
      cases xs' with
      | nil =>
        have hval := hvalIH x (by omega) hx f (']' :: rest) (by omega)
          (valStop_punct (by decide) (by decide) rest)
        have hs : renderElems [x] ++ ']' :: rest = Json.render x ++ ']' :: rest := by
          simp [renderElems]
        unfold parseP
        rw [hs, hval]
        dsimp only
        rw [skipWs_cons_not _ (show wsChar ']' = false by decide)]
        dsimp only
        rw [if_neg (show ¬(']' = ',') by decide), if_pos rfl]
      | cons y ys =>
        have hval := hvalIH x (by omega) hx f
          (',' :: (renderElems (y :: ys) ++ ']' :: rest)) (by omega)
          (valStop_punct (by decide) (by decide) _)
        have htl := (ih (n - 1) (by omega)).2.1 (y :: ys) (by omega) (by simp)
          (fun z hz => hall z (by simp [hz])) f rest (by omega)
        have hs : renderElems (x :: y :: ys) ++ ']' :: rest =
            Json.render x ++ (',' :: (renderElems (y :: ys) ++ ']' :: rest)) := by
          simp [renderElems]
        unfold parseP
        rw [hs, hval]
        dsimp only
        rw [skipWs_cons_not _ (show wsChar ',' = false by decide)]
        dsimp only
        rw [if_pos rfl, htl]
  · -- object members
    intro kvs hn' hne hall fuel rest hfuel
    cases kvs with
    | nil => exact absurd rfl hne
    | cons kv kvs' =>
      obtain ⟨k, v⟩ := kv
      obtain ⟨f, rfl⟩ : ∃ f, fuel = f + 1 :=
        ⟨fuel - 1, by have := fsizeMembers_pos ((k, v) :: kvs'); omega⟩
      have hkv := hall (k, v) (by simp)
      have hsafe : ∀ c ∈ k.data, safeChar c = true := by
        have := hkv.1
        simpa [strSafe, List.all_eq_true] using this
      simp only [fsizeMembers] at hn' hfuel
      have h1 := fsize_pos v
      have h2 := fsizeMembers_pos kvs'
      have hvalIH := (ih (n - 1) (by omega)).1
      cases kvs' with
      | nil =>
        have hval := hvalIH v (by omega) hkv.2 f (rbrace :: rest) (by omega)
          (valStop_punct (by decide) (by decide) rest)
        have hs : renderMembers [(k, v)] ++ rbrace :: rest =
            '"' :: (k.data ++ '"' :: (':' :: (Json.render v ++ rbrace :: rest))) := by
          simp [renderMembers, renderStringChars_safe k hkv.1]
        unfold parseP
        rw [hs, skipWs_cons_not _ (show wsChar '"' = false by decide)]
        dsimp only
        rw [if_pos rfl, parseStringChars_append k.data hsafe _]
        dsimp only
        rw [skipWs_cons_not _ (show wsChar ':' = false by decide)]
        dsimp only
        rw [if_pos rfl, hval]
        dsimp only
        rw [skipWs_cons_not _ (show wsChar rbrace = false by decide)]
        dsimp only
        rw [if_neg (show ¬(rbrace = ',') by decide), if_pos rfl]
      | cons m ms =>
        have hval := hvalIH v (by omega) hkv.2 f
          (',' :: (renderMembers (m :: ms) ++ rbrace :: rest)) (by omega)
          (valStop_punct (by decide) (by decide) _)
        have htl := (ih (n - 1) (by omega)).2.2 (m :: ms) (by omega) (by simp)
          (fun z hz => hall z (by simp [hz])) f rest (by omega)
        have hs : renderMembers ((k, v) :: m :: ms) ++ rbrace :: rest =
            '"' :: (k.data ++ '"' :: (':' :: (Json.render v ++
              (',' :: (renderMembers (m :: ms) ++ rbrace :: rest))))) := by
          simp [renderMembers, renderStringChars_safe k hkv.1]
        unfold parseP
        rw [hs, skipWs_cons_not _ (show wsChar '"' = false by decide)]
        dsimp only
        rw [if_pos rfl, parseStringChars_append k.data hsafe _]
        dsimp only
        rw [skipWs_cons_not _ (show wsChar ':' = false by decide)]
        dsimp only
        rw [if_pos rfl, hval]
        dsimp only
        rw [skipWs_cons_not _ (show wsChar ',' = false by decide)]
        dsimp only
        rw [if_pos rfl, htl]

theorem valStop_nil (j : Json) : valStop j [] := by
  cases j <;> simp [valStop, numStop]

theorem fsize_le_render (n : Nat) :
    (∀ j, Json.fsize j ≤ n → Json.fsize j ≤ 2 * (Json.render j).length + 1) ∧
    (∀ xs, fsizeElems xs ≤ n → fsizeElems xs ≤ 2 * (renderElems xs).length + 3) ∧
    (∀ kvs, fsizeMembers kvs ≤ n →
      fsizeMembers kvs ≤ 2 * (renderMembers kvs).length + 3) := by
  induction n using Nat.strong_induction_on with
  | _ n ih =>
  refine ⟨?_, ?_, ?_⟩
  · intro j hj
    cases j with
    | null => simp [Json.fsize]
    | bool b => simp [Json.fsize]
    | num nl => simp [Json.fsize]
    | str s => simp [Json.fsize]
    | arr xs =>
      simp only [Json.fsize] at hj ⊢
      have hfe := fsizeElems_pos xs
      have := (ih (n - 1) (by omega)).2.1 xs (by omega)
      simp only [Json.render, List.length_cons, List.length_append]
      omega
    | obj kvs =>
      simp only [Json.fsize] at hj ⊢
      have hfm := fsizeMembers_pos kvs
      have := (ih (n - 1) (by omega)).2.2 kvs (by omega)
      simp only [Json.render, List.length_cons, List.length_append]
      omega
  · intro xs hxs
    cases xs with
    | nil => simp [fsizeElems]
    | cons x xs' =>
      simp only [fsizeElems] at hxs ⊢
      have h1 := fsize_pos x
      have h2 := fsizeElems_pos xs'
      have hx := (ih (n - 1) (by omega)).1 x (by omega)
      have hxs' := (ih (n - 1) (by omega)).2.1 xs' (by omega)
      cases xs' with
      | nil =>
        simp only [renderElems, fsizeElems] at *
        omega
      | cons y ys =>
        simp only [renderElems, List.length_append, List.length_cons] at *
        omega
  · intro kvs hkvs
    cases kvs with
    | nil => simp [fsizeMembers]
    | cons kv kvs' =>
      obtain ⟨k, v⟩ := kv
      simp only [fsizeMembers] at hkvs ⊢
      have h1 := fsize_pos v
      have h2 := fsizeMembers_pos kvs'
      have hv := (ih (n - 1) (by omega)).1 v (by omega)
      have hkv' := (ih (n - 1) (by omega)).2.2 kvs' (by omega)
      cases kvs' with
      | nil =>
        simp only [renderMembers, fsizeMembers, List.length_append,
          List.length_cons] at *
        omega
      | cons m ms =>
        simp only [renderMembers, List.length_append, List.length_cons] at *
        omega

theorem json_parse_render (j : Json) (h : JsonWF j) :
    Json.parse (String.mk (Json.render j)) = some j := by
  have hfs := (fsize_le_render (Json.fsize j)).1 j le_rfl
  have hval := (parseP_render (Json.fsize j)).1 j le_rfl h
    (2 * (Json.render j).length + 2) [] (by omega) (valStop_nil j)
  rw [List.append_nil] at hval
  unfold Json.parse
  rw [show (String.mk (Json.render j)).length = (Json.render j).length from rfl,
    show (String.mk (Json.render j)).data = Json.render j from rfl, hval]
  rfl

theorem dropUntilBrace_append (pre s : List Char) (hpre : lbrace ∉ pre)
    (t : List Char) (hs : s = lbrace :: t) :
    dropUntilBrace (pre ++ s) = some s := by
  induction pre with
  | nil => subst hs; simp [dropUntilBrace]
  | cons c cs ih =>
    have hc : c ≠ lbrace := fun hc => hpre (by simp [hc])
    rw [List.cons_append]
    unfold dropUntilBrace
    rw [if_neg hc]
    exact ih fun hm => hpre (by simp [hm])

theorem takeToLastClose_none (post : List Char) (hpost : rbrace ∉ post) :
    takeToLastClose post = none := by
  induction post with
  | nil => rfl
  | cons c cs ih =>
    have hc : c ≠ rbrace := fun hc => hpost (by simp [hc])
    unfold takeToLastClose
    rw [ih fun hm => hpost (by simp [hm])]
    simp [hc]

theorem takeToLastClose_append (s' post : List Char)
    (hpost : takeToLastClose post = none) :
    takeToLastClose (s' ++ rbrace :: post) = some (s' ++ [rbrace]) := by
  induction s' with
  | nil =>
    simp only [List.nil_append]
    unfold takeToLastClose
    rw [hpost]
    simp
  | cons c cs ih =>
    rw [List.cons_append]
    unfold takeToLastClose
    rw [ih]
    rfl

theorem extractJson_append (pre mid post : List Char) (hpre : lbrace ∉ pre)
    (hpost : rbrace ∉ post) :
    extractJson (pre ++ (lbrace :: (mid ++ [rbrace])) ++ post) =
      some (lbrace :: (mid ++ [rbrace])) := by
  unfold extractJson
  rw [show pre ++ (lbrace :: (mid ++ [rbrace])) ++ post =
      pre ++ (lbrace :: (mid ++ rbrace :: post)) by simp,
    dropUntilBrace_append pre _ hpre (mid ++ rbrace :: post) rfl]
  dsimp only
  rw [show lbrace :: (mid ++ rbrace :: post) = (lbrace :: mid) ++ rbrace :: post
      from rfl,
    takeToLastClose_append (lbrace :: mid) post (takeToLastClose_none post hpost)]
  rfl

theorem normalize_wrapped (pre post : String) (kvs : List (String × Json))
    (hwf : JsonWF (.obj kvs)) (hpre : lbrace ∉ pre.data)
    (hpost : rbrace ∉ post.data) :
    normalize (pre ++ String.mk (Json.render (.obj kvs)) ++ post) =
      .ok (.obj kvs) := by
  have hshape : Json.render (.obj kvs) = lbrace :: (renderMembers kvs ++ [rbrace]) := by
    simp [Json.render]
  have hdata : (pre ++ String.mk (Json.render (.obj kvs)) ++ post).data =
      pre.data ++ (lbrace :: (renderMembers kvs ++ [rbrace])) ++ post.data := by
    rw [String.data_append, String.data_append,
      show (String.mk (Json.render (.obj kvs))).data = Json.render (.obj kvs)
        from rfl, hshape]
  unfold normalize
  rw [hdata, extractJson_append _ _ _ hpre hpost]
  dsimp only
  rw [show lbrace :: (renderMembers kvs ++ [rbrace]) = Json.render (.obj kvs)
      from hshape.symm, json_parse_render _ hwf]

theorem wfB_jsonWF (r : PredictionResult) (h : r.wfB = true) : JsonWF r.toJson := by
  obtain ⟨y, tp, cl, qg, risks, kf, rec', an⟩ := r
  simp only [PredictionResult.wfB, Bool.and_eq_true, List.all_eq_true] at h
  obtain ⟨⟨⟨⟨⟨⟨⟨h1, h2⟩, h3⟩, h4⟩, h5⟩, h6⟩, h7⟩, h8⟩ := h
  refine JsonWF.obj _ ?_ ?_
  · intro kv hkv
    simp only [PredictionResult.toJson, List.mem_cons, List.not_mem_nil,
      or_false] at hkv
    rcases hkv with rfl | rfl | rfl | rfl | rfl | rfl | rfl | rfl <;>
      (dsimp only; decide)
  · intro kv hkv
    simp only [PredictionResult.toJson, List.mem_cons, List.not_mem_nil,
      or_false] at hkv
    rcases hkv with rfl | rfl | rfl | rfl | rfl | rfl | rfl | rfl
    · exact JsonWF.num _ h1
    · exact JsonWF.num _ h2
    · exact JsonWF.num _ h3
    · exact JsonWF.str _ h4
    · refine JsonWF.arr _ ?_
      intro x hx
      rw [List.mem_map] at hx
      obtain ⟨d, hd, rfl⟩ := hx
      have hdw := h5 d hd
      simp only [Bool.and_eq_true] at hdw
      obtain ⟨⟨⟨hd1, hd2⟩, hd3⟩, hd4⟩ := hdw
      refine JsonWF.obj _ ?_ ?_
      · intro kv hkv
        simp only [DiseaseRisk.toJson, List.mem_cons, List.not_mem_nil,
          or_false] at hkv
        rcases hkv with rfl | rfl | rfl | rfl <;> (dsimp only; decide)
      · intro kv hkv
        simp only [DiseaseRisk.toJson, List.mem_cons, List.not_mem_nil,
          or_false] at hkv
        rcases hkv with rfl | rfl | rfl | rfl
        · exact JsonWF.str _ hd1
        · exact JsonWF.str _ hd2
        · exact JsonWF.str _ hd3
        · exact JsonWF.str _ hd4
    · refine JsonWF.arr _ ?_
      intro x hx
      rw [List.mem_map] at hx
      obtain ⟨s, hs, rfl⟩ := hx
      exact JsonWF.str _ (h6 s hs)
    · refine JsonWF.arr _ ?_
      intro x hx
      rw [List.mem_map] at hx
      obtain ⟨s, hs, rfl⟩ := hx
      exact JsonWF.str _ (h7 s hs)
    · exact JsonWF.str _ h8

theorem mapStrs_map (l : List String) : mapStrs (l.map Json.str) = some l := by
  induction l with
  | nil => rfl
  | cons s l ih =>
    simp only [List.map_cons]
    unfold mapStrs
    dsimp only [asStr]
    rw [ih]

theorem risk_fromJson_toJson (d : DiseaseRisk) :
    DiseaseRisk.fromJson? d.toJson = some d := rfl

theorem mapRisks_map (l : List DiseaseRisk) :
    mapRisks (l.map DiseaseRisk.toJson) = some l := by
  induction l with
  | nil => rfl
  | cons d l ih =>
    simp only [List.map_cons]
    unfold mapRisks
    rw [risk_fromJson_toJson, ih]

theorem fromJson_toJson (r : PredictionResult) :
    PredictionResult.fromJson? r.toJson = some r := by
  obtain ⟨y, tp, cl, qg, risks, kf, rec', an⟩ := r
  have hrisks := mapRisks_map risks
  have hkf := mapStrs_map kf
  have hrec := mapStrs_map rec'
  unfold PredictionResult.fromJson?
  rw [show Json.get? (PredictionResult.toJson ⟨y, tp, cl, qg, risks, kf, rec', an⟩)
        "yieldPerHectare" = some (Json.num y) from rfl,
    show Json.get? (PredictionResult.toJson ⟨y, tp, cl, qg, risks, kf, rec', an⟩)
        "totalProduction" = some (Json.num tp) from rfl,
    show Json.get? (PredictionResult.toJson ⟨y, tp, cl, qg, risks, kf, rec', an⟩)
        "confidenceLevel" = some (Json.num cl) from rfl,
    show Json.get? (PredictionResult.toJson ⟨y, tp, cl, qg, risks, kf, rec', an⟩)
        "qualityGrade" = some (Json.str qg) from rfl,
    show Json.get? (PredictionResult.toJson ⟨y, tp, cl, qg, risks, kf, rec', an⟩)
        "diseaseRisks" = some (Json.arr (risks.map DiseaseRisk.toJson)) from rfl,
    show Json.get? (PredictionResult.toJson ⟨y, tp, cl, qg, risks, kf, rec', an⟩)
        "keyFactors" = some (Json.arr (kf.map Json.str)) from rfl,
    show Json.get? (PredictionResult.toJson ⟨y, tp, cl, qg, risks, kf, rec', an⟩)
        "recommendations" = some (Json.arr (rec'.map Json.str)) from rfl,
    show Json.get? (PredictionResult.toJson ⟨y, tp, cl, qg, risks, kf, rec', an⟩)
        "analysis" = some (Json.str an) from rfl]
  simp only [Option.bind_eq_bind, Option.some_bind, asNum, asStr, asStrList,
    asRiskList, hrisks, hkf, hrec]
  rfl

theorem settingsGet_objSet (s : Settings) (a : String) (v : Json) (k : String) :
    settingsGet (objSet s a v) k = if a = k then some v else settingsGet s k := by
  induction s with
  | nil => simp [objSet, settingsGet]
  | cons p rest ih =>
    obtain ⟨b, w⟩ := p
    by_cases hba : b = a <;> by_cases hbk : b = k <;>
      simp_all [objSet, settingsGet]
    rw [if_neg fun h => hba h.symm]

theorem settingsGet_spreadFold (kvs : List (String × Json)) (base : Settings)
    (k : String) :
    settingsGet (kvs.foldl (fun acc kv => objSet acc kv.1 kv.2) base) k =
      (match lookupLast kvs k with
       | some v => some v
       | none => settingsGet base k) := by
  induction kvs generalizing base with
  | nil => rfl
  | cons kv rest ih =>
    obtain ⟨a, v⟩ := kv
    rw [List.foldl_cons, ih (objSet base a v)]
    cases hl : lookupLast rest k with
    | some w => simp [lookupLast, hl]
    | none =>
      simp only [lookupLast, hl, settingsGet_objSet]
      by_cases hak : a = k <;> simp [hak]

/-! ### Claim theorems -/

/-- C1, counterexample: the reply `\x7b"a":1\x7d` parses but lacks every
required top-level field, yet `serve` returns it as a 200 success instead
of failing with `ParseError` — the code never checks the parsed object's
fields. -/
theorem normalizer_missing_fields_cex :
    normalize "\x7b\"a\":1\x7d" =
      Except.ok (Json.obj [("a", Json.num ⟨false, [1], []⟩)]) ∧
    hasRequiredFields (Json.obj [("a", Json.num ⟨false, [1], []⟩)]) = false ∧
    serveHandleResponse 200 "\x7b\"a\":1\x7d" =
      ⟨200, Json.obj [("a", Json.num ⟨false, [1], []⟩)]⟩ :=
  ⟨rfl, rfl, rfl⟩

/-- C1, amended: whenever the normalizer's JSON parse succeeds, `serve`
returns the parsed object verbatim as the 200 reply body, with no
required-field check and no defaults substituted; `ParseError` (with the
fixed message `Failed to parse prediction data`, not the raw text) arises
only when the parse attempt itself fails, producing a 500 reply. -/
theorem normalize_verbatim_success (content : String) :
    (∀ j, normalize content = .ok j → serveHandleResponse 200 content = ⟨200, j⟩) ∧
    (∀ m, normalize content = .error m →
      serveHandleResponse 200 content = clientError 500 m) ∧
    (∀ m, normalize content = .error m → m = "Failed to parse prediction data") := by
  refine ⟨?_, ?_, ?_⟩
  · intro j hj
    unfold serveHandleResponse
    rw [if_pos (by decide), hj]
  · intro m hm
    unfold serveHandleResponse
    rw [if_pos (by decide), hm]
  · intro m hm
    unfold normalize at hm
    split at hm <;> split at hm <;> simp_all

/-- C1, witness for the amended theorem at the counterexample reply. -/
theorem normalize_verbatim_success_witness :
    normalize "\x7b\"a\":1\x7d" =
      Except.ok (Json.obj [("a", Json.num ⟨false, [1], []⟩)]) ∧
    serveHandleResponse 200 "\x7b\"a\":1\x7d" =
      ⟨200, Json.obj [("a", Json.num ⟨false, [1], []⟩)]⟩ :=
  ⟨rfl, (normalize_verbatim_success "\x7b\"a\":1\x7d").1 _ rfl⟩

/-- C2, counterexample: with no dispatch identifiers in `handlePredict`,
two dispatches A then B whose replies resolve in the order B, A leave A's
stale result as the final prediction state, not B's. -/
theorem stale_response_cex :
    (applyInvokeResult
        (applyInvokeResult (dispatchStart (dispatchStart ⟨false, none, []⟩))
          (.ok (Json.str "resultB")))
        (.ok (Json.str "resultA"))).prediction = some (Json.str "resultA") ∧
    Json.str "resultA" ≠ Json.str "resultB" := by
  refine ⟨rfl, fun h => ?_⟩
  exact absurd (Json.str.inj h) (by decide)

/-- C2, amended: the client tags nothing and discards nothing — the
handler continuation applies whichever response resolves last, so after
dispatches A then B with B's reply applied first, A's reply (when it
carries no truthy `error` field) becomes the final prediction:
last-writer-wins.  Overlap is instead prevented in the UI by disabling
the predict button while a request is in flight. -/
theorem stale_response_last_writer_wins (s : ClientState) (dA dB : Json)
    (hA : jsTruthyOpt (Json.get? dA "error") = false) :
    (applyInvokeResult
        (applyInvokeResult (dispatchStart (dispatchStart s)) (.ok dB))
        (.ok dA)).prediction = some dA := by
  simp [applyInvokeResult, hA]

/-- C2, witness for the amended theorem. -/
theorem stale_response_last_writer_wins_witness :
    jsTruthyOpt (Json.get? (Json.str "resultA") "error") = false ∧
    (applyInvokeResult
        (applyInvokeResult (dispatchStart (dispatchStart ⟨false, none, []⟩))
          (.ok (Json.str "resultB")))
        (.ok (Json.str "resultA"))).prediction = some (Json.str "resultA") :=
  ⟨rfl, stale_response_last_writer_wins ⟨false, none, []⟩ (Json.str "resultA")
    (Json.str "resultB") rfl⟩

/-- C3, counterexample: a humidity of `"abc"` is non-empty but not
parseable as a finite number; the code's validation passes it and a
network call is issued (with `parseFloat("abc") = NaN` in the body),
refuting the claimed parseability check. -/
theorem validator_parseability_cex :
    (handlePredictDispatch ⟨"Banane", "Argileux", "abc", "60", "28", "150", "5"⟩).isSome
      = true ∧
    specValidatorAccepts ⟨"Banane", "Argileux", "abc", "60", "28", "150", "5"⟩
      = false :=
  ⟨rfl, rfl⟩

/-- C3, amended: the validator accepts exactly when all seven fields are
non-empty (categorical fields checked first, with their own toast), and
any validation failure yields a toast and no network call; parseability
as a finite number is never checked. -/
theorem validator_amended (f : FormData) :
    ((handlePredictDispatch f).isSome = true ↔
      (f.cropType ≠ "" ∧ f.soilType ≠ "" ∧ f.humidity ≠ "" ∧ f.moisture ≠ "" ∧
        f.temperature ≠ "" ∧ f.rainfall ≠ "" ∧ f.area ≠ "")) ∧
    ((f.cropType = "" ∨ f.soilType = "") →
      validateForm f = some "Please select crop type and soil type") ∧
    (∀ m, validateForm f = some m → handlePredictDispatch f = none) := by
  obtain ⟨c, s, hu, mo, te, ra, ar⟩ := f
  simp only [handlePredictDispatch, validateForm]
  by_cases h1 : (c == "" || s == "") = true
  · rw [if_pos h1]
    simp only [Bool.or_eq_true, beq_iff_eq] at h1
    refine ⟨?_, fun _ => rfl, fun m _ => rfl⟩
    rcases h1 with rfl | rfl <;> simp
  · rw [if_neg h1]
    simp only [Bool.or_eq_true, beq_iff_eq, not_or] at h1
    by_cases h2 : ([hu, mo, te, ra, ar].filter fun v => v == "").length > 0
    · rw [if_pos h2]
      simp only [gt_iff_lt, List.length_pos, ne_eq,
        List.filter_eq_nil_iff, not_forall] at h2
      refine ⟨?_, fun hcs => absurd hcs (by simp [h1.1, h1.2]), fun m _ => rfl⟩
      simp only [Option.isSome_none, Bool.false_eq_true, false_iff, not_and]
      intro _ _ hhu hmo hte hra har
      obtain ⟨x, hx, hxe⟩ := h2
      simp only [List.mem_cons, List.not_mem_nil, or_false] at hx
      simp only [beq_iff_eq] at hxe
      rcases hx with rfl | rfl | rfl | rfl | rfl <;> simp_all
    · rw [if_neg h2]
      simp only [gt_iff_lt, not_lt, Nat.le_zero, List.length_eq_zero,
        List.filter_eq_nil_iff] at h2
      refine ⟨?_, fun hcs => absurd hcs (by simp [h1.1, h1.2]),
        fun m hm => nomatch hm⟩
      simp only [Option.isSome_some, true_iff]
      have h3 : ∀ x ∈ [hu, mo, te, ra, ar], x ≠ "" := by
        intro x hxm
        have := h2 x hxm
        simpa using this
      exact ⟨h1.1, h1.2, h3 hu (by simp), h3 mo (by simp), h3 te (by simp),
        h3 ra (by simp), h3 ar (by simp)⟩

/-- C3, witness for the amended theorem: a fully non-empty form is
dispatched, an empty-categorical form gets the categorical toast. -/
theorem validator_amended_witness :
    ((handlePredictDispatch ⟨"Banane", "Argileux", "90", "85", "30", "250", "4"⟩).isSome
        = true ↔
      (("Banane" : String) ≠ "" ∧ ("Argileux" : String) ≠ "" ∧
        ("90" : String) ≠ "" ∧ ("85" : String) ≠ "" ∧ ("30" : String) ≠ "" ∧
        ("250" : String) ≠ "" ∧ ("4" : String) ≠ "")) ∧
    validateForm ⟨"", "Argileux", "90", "85", "30", "250", "4"⟩ =
      some "Please select crop type and soil type" :=
  ⟨(validator_amended ⟨"Banane", "Argileux", "90", "85", "30", "250", "4"⟩).1,
    (validator_amended ⟨"", "Argileux", "90", "85", "30", "250", "4"⟩).2.1
      (Or.inl rfl)⟩

/-- C4: the brace-extraction round trip — rendering a well-formed
prediction result to JSON, wrapping it in markdown-fenced prose (no brace
in the preamble, none in the trailer), and feeding it through the
normalizer yields exactly the rendered object, which decodes back to the
original result. -/
theorem normalizer_roundtrip (r : PredictionResult) (pre post : String)
    (hwf : r.wfB = true) (hpre : lbrace ∉ pre.data) (hpost : rbrace ∉ post.data) :
    normalize (pre ++ String.mk (Json.render r.toJson) ++ post) =
      Except.ok r.toJson ∧
    PredictionResult.fromJson? r.toJson = some r := by
  refine ⟨?_, fromJson_toJson r⟩
  have hj := wfB_jsonWF r hwf
  obtain ⟨kvs, hkvs⟩ : ∃ kvs, r.toJson = Json.obj kvs := ⟨_, rfl⟩
  rw [hkvs] at hj ⊢
  exact normalize_wrapped pre post kvs hj hpre hpost

/-- C4, witness: the round trip evaluated on the specification's sample
result inside markdown fences. -/
theorem normalizer_roundtrip_witness :
    (sampleResult.wfB = true ∧ lbrace ∉ samplePre.data ∧
      rbrace ∉ samplePost.data) ∧
    (normalize (samplePre ++ String.mk (Json.render sampleResult.toJson) ++
        samplePost) = Except.ok sampleResult.toJson ∧
      PredictionResult.fromJson? sampleResult.toJson = some sampleResult) :=
  ⟨⟨by decide, by decide, by decide⟩,
    normalizer_roundtrip sampleResult samplePre samplePost (by decide)
      (by decide) (by decide)⟩

/-- C5: every non-2xx gateway status is classified as the code does —
429 to the rate-limit reply with status 429, 402 to the quota reply with
status 402, and anything else to a 500 reply whose message preserves the
status code. -/
theorem gateway_status_mapping (status : Nat) (content : String)
    (h : status < 200 ∨ 299 < status) :
    (status = 429 → serveHandleResponse status content =
      clientError 429 "Rate limits exceeded. Please try again later.") ∧
    (status = 402 → serveHandleResponse status content =
      clientError 402 "Payment required. Please add credits to your workspace.") ∧
    (status ≠ 429 → status ≠ 402 → serveHandleResponse status content =
      clientError 500 ("AI gateway error: " ++ toString status)) := by
  refine ⟨?_, ?_, ?_⟩
  · rintro rfl; rfl
  · rintro rfl; rfl
  · intro h1 h2
    unfold serveHandleResponse
    rw [if_neg (show ¬((200 ≤ status && status ≤ 299) = true) by
        simp only [Bool.and_eq_true, decide_eq_true_eq, not_and]; omega),
      if_neg (show ¬((status == 429) = true) by simp [h1]),
      if_neg (show ¬((status == 402) = true) by simp [h2])]

/-- C5, witness at status 404. -/
theorem gateway_status_mapping_witness :
    (404 < 200 ∨ 299 < 404) ∧
    serveHandleResponse 404 "x" =
      clientError 500 ("AI gateway error: " ++ toString 404) :=
  ⟨by decide, (gateway_status_mapping 404 "x" (by decide)).2.2
    (by decide) (by decide)⟩

/-- C6: with no credential in the environment, `serve` fails before the
fetch — the outbound request is never built, the reply is the 500
configuration error, and the result is independent of the network. -/
theorem missing_credential_no_network (i : PredictionInput)
    (net net' : GatewayRequest → Nat × String) :
    serveBuildRequest none i = .error "LOVABLE_API_KEY is not configured" ∧
    serveRun none i net = clientError 500 "LOVABLE_API_KEY is not configured" ∧
    serveRun none i net = serveRun none i net' :=
  ⟨rfl, rfl, rfl⟩

/-- C6, witness at the sample input and two distinct network stubs. -/
theorem missing_credential_no_network_witness :
    serveRun none sampleInput (fun _ => (200, "a")) =
      clientError 500 "LOVABLE_API_KEY is not configured" ∧
    serveRun none sampleInput (fun _ => (200, "a")) =
      serveRun none sampleInput (fun _ => (500, "b")) :=
  ⟨(missing_credential_no_network sampleInput (fun _ => (200, "a"))
      (fun _ => (500, "b"))).2.1,
    (missing_credential_no_network sampleInput (fun _ => (200, "a"))
      (fun _ => (500, "b"))).2.2⟩

/-- C7: the prompt builder is deterministic — equal inputs give
byte-identical prompt pairs, and the system prompt is the same fixed
string for every input. -/
theorem prompt_builder_deterministic (a b : PredictionInput) (h : a = b) :
    buildPrompts a = buildPrompts b ∧
    ∀ c : PredictionInput, (buildPrompts c).1 = systemPrompt :=
  ⟨by rw [h], fun _ => rfl⟩

/-- C7, witness at the sample input. -/
theorem prompt_builder_deterministic_witness :
    sampleInput = sampleInput ∧
    (buildPrompts sampleInput = buildPrompts sampleInput ∧
      ∀ c : PredictionInput, (buildPrompts c).1 = systemPrompt) :=
  ⟨rfl, prompt_builder_deterministic sampleInput sampleInput rfl⟩

/-- C8, counterexample: the section `darkMode` exists in the state (with
value `false`), yet `updateNestedSetting` is a no-op because the guard is
JS truthiness, not existence — refuting "if the section exists, the write
merges". -/
theorem setNested_falsy_section_cex :
    settingsGet [("darkMode", Json.bool false)] "darkMode" =
      some (Json.bool false) ∧
    updateNestedSetting [("darkMode", Json.bool false)] "darkMode" "enabled"
      (Json.bool true) = [("darkMode", Json.bool false)] :=
  ⟨rfl, rfl⟩

/-- C8, amended: the write is a no-op when the section is absent or its
current value is falsy; when the section's value is an object (always
truthy) the key is merged one level deep into a copy of that section. -/
theorem setNested_amended (s : Settings) (sec key : String) (v : Json) :
    (settingsGet s sec = none → updateNestedSetting s sec key v = s) ∧
    (∀ sd, settingsGet s sec = some sd → jsTruthy sd = false →
      updateNestedSetting s sec key v = s) ∧
    (∀ kvs, settingsGet s sec = some (Json.obj kvs) →
      updateNestedSetting s sec key v =
        objSet s sec (Json.obj (objSet kvs key v))) := by
  refine ⟨?_, ?_, ?_⟩
  · intro h
    unfold updateNestedSetting
    rw [h]
  · intro sd h hf
    unfold updateNestedSetting
    rw [h]
    dsimp only
    rw [if_neg (by simp [hf])]
  · intro kvs h
    unfold updateNestedSetting
    rw [h]
    dsimp only
    rw [if_pos (show jsTruthy (Json.obj kvs) = true from rfl)]
    rfl

/-- C8, witness for the amended theorem: merge into an existing object
section, and no-op on an absent section. -/
theorem setNested_amended_witness :
    settingsGet [("ui", Json.obj [("x", Json.num ⟨false, [1], []⟩)])] "ui" =
      some (Json.obj [("x", Json.num ⟨false, [1], []⟩)]) ∧
    updateNestedSetting [("ui", Json.obj [("x", Json.num ⟨false, [1], []⟩)])]
        "ui" "y" Json.null =
      objSet [("ui", Json.obj [("x", Json.num ⟨false, [1], []⟩)])] "ui"
        (Json.obj (objSet [("x", Json.num ⟨false, [1], []⟩)] "y" Json.null)) ∧
    updateNestedSetting [("ui", Json.obj [("x", Json.num ⟨false, [1], []⟩)])]
        "missing" "y" Json.null =
      [("ui", Json.obj [("x", Json.num ⟨false, [1], []⟩)])] :=
  ⟨rfl,
    (setNested_amended [("ui", Json.obj [("x", Json.num ⟨false, [1], []⟩)])]
      "ui" "y" Json.null).2.2 _ rfl,
    (setNested_amended [("ui", Json.obj [("x", Json.num ⟨false, [1], []⟩)])]
      "missing" "y" Json.null).1 rfl⟩

/-- C9: on provider initialization, an absent or unparseable stored
string yields exactly the defaults; a parsed value overrides the defaults
key-wise (latest stored pair winning), so every default key is present in
the resulting state. -/
theorem settings_init_defaults_merge (saved : Option String) :
    (saved = none → initSettings saved = defaultSettings) ∧
    (∀ s, saved = some s → Json.parse s = none →
      initSettings saved = defaultSettings) ∧
    (∀ s j, saved = some s → s ≠ "" → Json.parse s = some j → ∀ k,
      settingsGet (initSettings saved) k =
        (match lookupLast (jsSpreadPairs j) k with
         | some v => some v
         | none => settingsGet defaultSettings k)) ∧
    (∀ k, (settingsGet defaultSettings k).isSome = true →
      (settingsGet (initSettings saved) k).isSome = true) := by
  refine ⟨?_, ?_, ?_, ?_⟩
  · rintro rfl; rfl
  · rintro s rfl hp
    unfold initSettings
    dsimp only
    by_cases hs : (s == "") = true
    · rw [if_pos hs]
    · rw [if_neg hs, hp]
  · rintro s j rfl hs hp k
    unfold initSettings
    dsimp only
    rw [if_neg (show ¬((s == "") = true) by simp [hs]), hp]
    dsimp only
    unfold spreadOver
    exact settingsGet_spreadFold (jsSpreadPairs j) defaultSettings k
  · intro k hk
    cases saved with
    | none => exact hk
    | some s =>
      unfold initSettings
      dsimp only
      by_cases hs : (s == "") = true
      · rw [if_pos hs]; exact hk
      · rw [if_neg hs]
        cases hp : Json.parse s with
        | none => exact hk
        | some j =>
          unfold spreadOver
          rw [settingsGet_spreadFold]
          cases lookupLast (jsSpreadPairs j) k with
          | some v => rfl
          | none => exact hk

/-- C9, witness: a stored object overriding `darkMode`, read back after
initialization. -/
theorem settings_init_defaults_merge_witness :
    Json.parse "\x7b\"darkMode\":true\x7d" =
      some (Json.obj [("darkMode", Json.bool true)]) ∧
    settingsGet (initSettings (some "\x7b\"darkMode\":true\x7d")) "darkMode" =
      (match lookupLast (jsSpreadPairs (Json.obj [("darkMode", Json.bool true)]))
          "darkMode" with
       | some v => some v
       | none => settingsGet defaultSettings "darkMode") :=
  ⟨rfl, (settings_init_defaults_merge (some "\x7b\"darkMode\":true\x7d")).2.2.1
    "\x7b\"darkMode\":true\x7d" (Json.obj [("darkMode", Json.bool true)]) rfl
    (by decide) rfl "darkMode"⟩

/-- C10, counterexample: a reply whose body contains an `error` field
with a falsy value (the empty string) is treated as a success — the code
tests truthiness of `data.error`, not presence, so a Succeeded state is
produced. -/
theorem client_error_field_falsy_cex :
    (Json.get? (Json.obj [("error", Json.str "")]) "error").isSome = true ∧
    (applyInvokeResult (dispatchStart ⟨false, none, []⟩)
        (.ok (Json.obj [("error", Json.str "")]))).prediction =
      some (Json.obj [("error", Json.str "")]) ∧
    (applyInvokeResult (dispatchStart ⟨false, none, []⟩)
        (.ok (Json.obj [("error", Json.str "")]))).toasts =
      ["Yield prediction generated successfully!"] :=
  ⟨rfl, rfl, rfl⟩

/-- C10, amended: a reply whose body carries a truthy `error` value is
treated as a failure — no Succeeded state (the prediction stays cleared
at `none` from dispatch), loading ends, and the error value is surfaced
as the toast. -/
theorem client_truthy_error_failure (s : ClientState) (data e : Json)
    (hget : Json.get? data "error" = some e) (htr : jsTruthy e = true) :
    (applyInvokeResult (dispatchStart s) (.ok data)).prediction = none ∧
    (applyInvokeResult (dispatchStart s) (.ok data)).loading = false ∧
    (applyInvokeResult (dispatchStart s) (.ok data)).toasts =
      s.toasts ++ [errDisplay (some e)] := by
  unfold applyInvokeResult
  dsimp only
  rw [hget]
  dsimp only [jsTruthyOpt]
  rw [if_pos htr]
  exact ⟨rfl, rfl, rfl⟩

/-- C10, witness at a non-empty error message. -/
theorem client_truthy_error_failure_witness :
    Json.get? (Json.obj [("error", Json.str "boom")]) "error" =
      some (Json.str "boom") ∧
    jsTruthy (Json.str "boom") = true ∧
    (applyInvokeResult (dispatchStart ⟨false, none, []⟩)
        (.ok (Json.obj [("error", Json.str "boom")]))).prediction = none :=
  ⟨rfl, rfl, (client_truthy_error_failure ⟨false, none, []⟩
    (Json.obj [("error", Json.str "boom")]) (Json.str "boom") rfl rfl).1⟩

end Agridom
